import Mathlib

/-!
# Verification of the covid-model-deaths-spline holdout-ensemble pipeline

Shallow embedding of the draw-synthesis and aggregation core of the
repository (src/covid_model_deaths_spline/models.py and runner.py),
together with proofs of the spec's claims about it.

Conventions:
* a missing value (NaN in the pandas frames) is `Option.none`;
* rates and draw values are rationals (`ℚ`);
* dates are integers counting days, so `pandas` day differences are
  integer subtraction.
-/

namespace CovidSpline

/-! ## Draw allocation (models.py, `run_models` lines 101–103)

```python
doy_holdouts += 1
iteration_n_draws = [int(n_draws / doy_holdouts)] * doy_holdouts
iteration_n_draws[-1] += n_draws - np.sum(iteration_n_draws)
```
`doy_holdouts` enters as the requested holdout count `H`; after the
increment there are `H + 1` iterations.  `int(n_draws / k)` on
nonnegative ints is floor division. -/

def iteration_n_draws (doy_holdouts n_draws : Nat) : List Nat :=
  let k := doy_holdouts + 1
  let base := n_draws / k
  (List.replicate k base).set (k - 1) (base + (n_draws - base * k))

/-- Setting the last element of a constant list appends it after the
constant prefix. -/
lemma replicate_set_last (k : Nat) (b v : Nat) (hk : 0 < k) :
    (List.replicate k b).set (k - 1) v = List.replicate (k - 1) b ++ [v] := by
  induction k with
  | zero => exact absurd hk (lt_irrefl 0)
  | succ n ih =>
    cases n with
    | zero => simp
    | succ m =>
      have hm : 0 < m + 1 := Nat.succ_pos m
      have step := ih hm
      simp only [List.replicate_succ, Nat.succ_sub_one] at step ⊢
      simp [List.set_cons_succ, step, List.replicate_succ]

lemma iteration_n_draws_eq (H n : Nat) :
    iteration_n_draws H n =
      List.replicate H (n / (H + 1)) ++ [n / (H + 1) + (n - n / (H + 1) * (H + 1))] := by
  unfold iteration_n_draws
  simpa using replicate_set_last (H + 1) (n / (H + 1)) _ (Nat.succ_pos H)

lemma iteration_n_draws_length (H n : Nat) :
    (iteration_n_draws H n).length = H + 1 := by
  simp [iteration_n_draws_eq]

lemma iteration_n_draws_getD_lt (H n i : Nat) (hi : i < H) :
    (iteration_n_draws H n).getD i 0 = n / (H + 1) := by
  rw [iteration_n_draws_eq]
  rw [List.getD_eq_getElem?_getD, List.getElem?_append_left (by simpa using hi)]
  simp [List.getElem?_replicate, hi]

lemma iteration_n_draws_getD_last (H n : Nat) :
    (iteration_n_draws H n).getD H 0 = n / (H + 1) + (n - n / (H + 1) * (H + 1)) := by
  rw [iteration_n_draws_eq]
  rw [List.getD_eq_getElem?_getD, List.getElem?_append_right (by simp)]
  simp

lemma iteration_n_draws_sum (H n : Nat) :
    (iteration_n_draws H n).sum = n := by
  rw [iteration_n_draws_eq]
  have hle : n / (H + 1) * (H + 1) ≤ n := Nat.div_mul_le_self n (H + 1)
  simp only [List.sum_append, List.sum_replicate, List.sum_cons, List.sum_nil, smul_eq_mul]
  have : H * (n / (H + 1)) + (n / (H + 1) + (n - n / (H + 1) * (H + 1)) + 0)
      = (H + 1) * (n / (H + 1)) + (n - n / (H + 1) * (H + 1)) := by ring_nf
  rw [this, Nat.mul_comm (H + 1)]
  omega

/-- Claim C2: the draw allocation has exactly `H+1` entries in depth order;
every entry equals `⌊n_draws/(H+1)⌋` except the last, which additionally
absorbs the remainder; the entries sum exactly to `n_draws`, each entry is
at least the base, `H = 0` yields one iteration consuming all draws, and
`H = 2, n_draws = 10` gives `[3, 3, 4]`. -/
theorem C2_draw_allocation (H n_draws : Nat) (hn : 0 < n_draws) :
    (iteration_n_draws H n_draws).length = H + 1
    ∧ (∀ i, i < H → (iteration_n_draws H n_draws).getD i 0 = n_draws / (H + 1))
    ∧ (iteration_n_draws H n_draws).getD H 0
        = n_draws / (H + 1) + (n_draws - n_draws / (H + 1) * (H + 1))
    ∧ (iteration_n_draws H n_draws).sum = n_draws
    ∧ (∀ i, i < (iteration_n_draws H n_draws).length →
        n_draws / (H + 1) ≤ (iteration_n_draws H n_draws).getD i 0)
    ∧ iteration_n_draws 0 n_draws = [n_draws]
    ∧ iteration_n_draws 2 10 = [3, 3, 4] := by
  refine ⟨iteration_n_draws_length H n_draws,
    fun i hi => iteration_n_draws_getD_lt H n_draws i hi,
    iteration_n_draws_getD_last H n_draws, iteration_n_draws_sum H n_draws,
    ?_, ?_, by decide⟩
  · intro i hi
    rw [iteration_n_draws_length] at hi
    rcases Nat.lt_succ_iff_lt_or_eq.mp hi with h | h
    · rw [iteration_n_draws_getD_lt H n_draws i h]
    · rw [h, iteration_n_draws_getD_last]
      exact Nat.le_add_right _ _
  · rw [iteration_n_draws_eq]
    simp [Nat.sub_self]

/-! ## Global draw-column renaming (models.py, `run_models` lines 110–118)

```python
col_add = np.sum(iteration_n_draws[:i])
cols = [f'draw_{d}' for d in np.arange(iteration_n_draws[i])]
new_cols = [f'draw_{d + col_add}' for d in np.arange(iteration_n_draws[i])]
nd = nd.rename(index=str, columns=dict(zip(cols, new_cols)))
```
The intent is to rename iteration `i`'s local draw column `draw_j` to the
global id `draw_{c + j}`, `c = Σ_{j<i} d_j`.  The code misses it at
`i = 0`: the slice `iteration_n_draws[:0]` is empty, and `np.sum([])`
returns `0.0` as an `np.float64` (numpy's empty sum defaults to float64),
not a Python/np int.  `d + col_add` is then `int64 + float64 = float64`,
and the f-string renders it with a trailing `.0`, so iteration 0's columns
are renamed to `draw_0.0, draw_1.0, …` while every later iteration gets
the intended integer names `draw_{d_0}, …`.  The assembled column space is
therefore never `{draw_0, …, draw_{n_draws-1}}`.  We embed the scalar
arithmetic with its numpy dtype, and the rename target as the rendered
string. -/

/-- A numpy scalar as it occurs in the renaming arithmetic: `int` is
`np.int64`, `float` is `np.float64`.  The only float64 arising here is
the integral empty-sum `0.0` (and its translates), so the float case
carries its exact integer value. -/
inductive NpScalar where
  | int (n : Nat)
  | float (n : Nat)
  deriving DecidableEq

/-- `np.sum` of a list of Python ints: `np.float64 0.0` on the empty
list, the `np.int64` sum otherwise. -/
def np_sum (l : List Nat) : NpScalar :=
  if l.isEmpty then NpScalar.float 0 else NpScalar.int l.sum

/-- numpy addition `np.int64 d + s`: the result is float64 exactly when
`s` is float64. -/
def NpScalar.add (d : Nat) : NpScalar → NpScalar
  | NpScalar.int n => NpScalar.int (d + n)
  | NpScalar.float n => NpScalar.float (d + n)

/-- How the f-string interpolates the scalar: `np.int64` prints bare,
an integral `np.float64` prints with a trailing `.0`. -/
def NpScalar.render : NpScalar → String
  | NpScalar.int n => toString n
  | NpScalar.float n => toString n ++ ".0"

/-- models.py lines 111–113: the rename target for iteration `i`'s local
draw column `draw_j`. -/
def new_col (ds : List Nat) (i j : Nat) : String :=
  "draw_" ++ (NpScalar.add j (np_sum (ds.take i))).render

/-- Claim C1 (code bug, evaluated at the failing input `H = 2`,
`n_draws = 10`): iteration 0's local draw columns are renamed to
`draw_0.0, draw_1.0, draw_2.0` — not to the claimed integer ids
`draw_0..draw_2` — because `np.sum` of the empty slice is `np.float64
0.0`; the positive-depth iterations do get the intended integer ids
`draw_3..draw_5` and `draw_6..draw_9`, so the claimed global id space
`{draw_0, …, draw_9}` never materializes. -/
theorem C1_rename_bug :
    new_col (iteration_n_draws 2 10) 0 0 = "draw_0.0"
    ∧ new_col (iteration_n_draws 2 10) 0 1 = "draw_1.0"
    ∧ new_col (iteration_n_draws 2 10) 0 2 = "draw_2.0"
    ∧ ¬ new_col (iteration_n_draws 2 10) 0 0 = "draw_0"
    ∧ ¬ new_col (iteration_n_draws 2 10) 0 1 = "draw_1"
    ∧ ¬ new_col (iteration_n_draws 2 10) 0 2 = "draw_2"
    ∧ new_col (iteration_n_draws 2 10) 1 0 = "draw_3"
    ∧ new_col (iteration_n_draws 2 10) 1 2 = "draw_5"
    ∧ new_col (iteration_n_draws 2 10) 2 0 = "draw_6"
    ∧ new_col (iteration_n_draws 2 10) 2 3 = "draw_9" := by
  decide

/-- Witness for C2 at `H = 2`, `n_draws = 10`. -/
theorem C2_draw_allocation_witness :
    (iteration_n_draws 2 10).length = 3
    ∧ (iteration_n_draws 2 10).getD 0 0 = 3
    ∧ (iteration_n_draws 2 10).getD 2 0 = 10 / 3 + (10 - 10 / 3 * 3)
    ∧ (iteration_n_draws 2 10).sum = 10 := by
  obtain ⟨h1, h2, h3, h4, _, _, _⟩ := C2_draw_allocation 2 10 (by decide)
  exact ⟨h1, h2 0 (by decide), h3, h4⟩

/-! ## Tail blanking (models.py, `drop_days_by_indicator` lines 21–27 and
`model_iteration` lines 34–38)

```python
def drop_days_by_indicator(data, doy_holdout):
    data = data.values
    if doy_holdout > 0:
        drop_idx = np.argwhere(~np.isnan(data))[-doy_holdout:]
        data[drop_idx] = np.nan
    return data
```
`np.argwhere(~np.isnan(data))` lists the indices of the non-missing
entries in increasing order; the Python slice `[-h:]` (for `h > 0`) keeps
the last `min(h, m)` of them. -/

/-- Indices of the non-missing entries of a channel, in increasing order
(the embedding of `np.argwhere(~np.isnan(data))`). -/
def nonMissingIdx (data : List (Option ℚ)) : List Nat :=
  (List.range data.length).filter (fun i => (data.getD i none).isSome)

/-- The indices blanked by one call: for `h > 0` the last `min(h, m)`
non-missing indices (Python slice `[-h:]`), nothing for `h = 0`. -/
def blankedIdx (data : List (Option ℚ)) (doy_holdout : Nat) : List Nat :=
  if 0 < doy_holdout then
    (nonMissingIdx data).drop ((nonMissingIdx data).length - doy_holdout)
  else []

def drop_days_by_indicator (data : List (Option ℚ)) (doy_holdout : Nat) :
    List (Option ℚ) :=
  if 0 < doy_holdout then
    (List.range data.length).map
      (fun i => if i ∈ blankedIdx data doy_holdout then none else data.getD i none)
  else data

/-- The three indicator channels of a location's model-data frame, each a
list of per-date values (`none` = NaN); the date axis is the position. -/
structure IndicatorFrame where
  death_rate : List (Option ℚ)
  case_rate : List (Option ℚ)
  hosp_rate : List (Option ℚ)
  deriving DecidableEq

/-- The blanking loop of `model_iteration` (models.py lines 35–37): each
of the three indicator channels is blanked independently. -/
def model_iteration_blank (f : IndicatorFrame) (doy_holdout : Nat) : IndicatorFrame :=
  { death_rate := drop_days_by_indicator f.death_rate doy_holdout
    case_rate := drop_days_by_indicator f.case_rate doy_holdout
    hosp_rate := drop_days_by_indicator f.hosp_rate doy_holdout }

lemma mem_nonMissingIdx {data : List (Option ℚ)} {i : Nat} :
    i ∈ nonMissingIdx data ↔ i < data.length ∧ (data.getD i none).isSome := by
  simp [nonMissingIdx]

lemma nonMissingIdx_sorted (data : List (Option ℚ)) :
    (nonMissingIdx data).Pairwise (· < ·) :=
  (List.pairwise_lt_range data.length).filter _

lemma nonMissingIdx_cons (x : Option ℚ) (xs : List (Option ℚ)) :
    nonMissingIdx (x :: xs) =
      (if x.isSome then [0] else []) ++ (nonMissingIdx xs).map Nat.succ := by
  unfold nonMissingIdx
  rw [List.length_cons, List.range_succ_eq_map, List.filter_cons, List.filter_map]
  have hpred : (fun i => (((x :: xs).getD (Nat.succ i) none).isSome : Bool))
      = fun i => ((xs.getD i none).isSome : Bool) := by
    funext i
    simp [List.getD_cons_succ]
  cases hx : x.isSome <;>
    simp [hx, Function.comp_def, List.getD_cons_succ]

lemma nonMissingIdx_length (data : List (Option ℚ)) :
    (nonMissingIdx data).length = data.countP (fun x => x.isSome) := by
  induction data with
  | nil => rfl
  | cons x xs ih =>
    rw [nonMissingIdx_cons, List.length_append, List.length_map, ih, List.countP_cons]
    cases hx : x.isSome <;> simp [hx, Nat.add_comm]

lemma blankedIdx_length (data : List (Option ℚ)) (h : Nat) :
    (blankedIdx data h).length = min h (nonMissingIdx data).length := by
  unfold blankedIdx
  by_cases hh : 0 < h
  · rw [if_pos hh, List.length_drop]
    omega
  · rw [if_neg hh]
    have : h = 0 := by omega
    simp [this]

lemma blankedIdx_subset (data : List (Option ℚ)) (h : Nat) :
    ∀ i ∈ blankedIdx data h, i ∈ nonMissingIdx data := by
  intro i hi
  unfold blankedIdx at hi
  by_cases hh : 0 < h
  · rw [if_pos hh] at hi
    exact List.mem_of_mem_drop hi
  · rw [if_neg hh] at hi
    simp at hi

lemma blankedIdx_most_recent (data : List (Option ℚ)) (h : Nat) :
    ∀ i ∈ nonMissingIdx data, i ∉ blankedIdx data h →
      ∀ j ∈ blankedIdx data h, i < j := by
  intro i hi hni j hj
  unfold blankedIdx at hni hj
  by_cases hh : 0 < h
  · rw [if_pos hh] at hni hj
    set m := (nonMissingIdx data).length - h with hm
    have hsplit : (nonMissingIdx data).take m ++ (nonMissingIdx data).drop m
        = nonMissingIdx data := List.take_append_drop m _
    have hpw : ((nonMissingIdx data).take m ++ (nonMissingIdx data).drop m).Pairwise (· < ·) := by
      rw [hsplit]
      exact nonMissingIdx_sorted data
    have hitake : i ∈ (nonMissingIdx data).take m := by
      rw [← hsplit] at hi
      rcases List.mem_append.mp hi with h1 | h1
      · exact h1
      · exact absurd h1 hni
    exact (List.pairwise_append.mp hpw).2.2 i hitake j hj
  · rw [if_neg hh] at hj
    simp at hj

lemma drop_days_length (data : List (Option ℚ)) (h : Nat) :
    (drop_days_by_indicator data h).length = data.length := by
  unfold drop_days_by_indicator
  by_cases hh : 0 < h
  · rw [if_pos hh]
    simp
  · rw [if_neg hh]

lemma drop_days_getD (data : List (Option ℚ)) (h : Nat) (i : Nat)
    (hi : i < data.length) :
    (drop_days_by_indicator data h).getD i none =
      if i ∈ blankedIdx data h then none else data.getD i none := by
  unfold drop_days_by_indicator
  by_cases hh : 0 < h
  · rw [if_pos hh]
    rw [List.getD_eq_getElem?_getD, List.getElem?_map, List.getElem?_range hi]
    simp
  · rw [if_neg hh]
    have hz : h = 0 := by omega
    subst hz
    simp [blankedIdx]

/-- Claim C3: tail blanking sets to missing exactly the last `min(h, m)`
non-missing points of a channel with `m` non-missing observations, leaves
all earlier points (and the date axis: positions and length) unchanged,
is the identity when `h = 0`, and the three indicator channels are blanked
independently of one another. -/
theorem C3_tail_blanking (data : List (Option ℚ)) (h : Nat) :
    drop_days_by_indicator data 0 = data
    ∧ (drop_days_by_indicator data h).length = data.length
    ∧ (nonMissingIdx data).length = data.countP (fun x => x.isSome)
    ∧ (blankedIdx data h).length = min h (nonMissingIdx data).length
    ∧ (∀ i, i < data.length →
        (drop_days_by_indicator data h).getD i none =
          if i ∈ blankedIdx data h then none else data.getD i none)
    ∧ (∀ i ∈ blankedIdx data h, (data.getD i none).isSome)
    ∧ (∀ i ∈ nonMissingIdx data, i ∉ blankedIdx data h →
        ∀ j ∈ blankedIdx data h, i < j)
    ∧ (∀ f : IndicatorFrame,
        model_iteration_blank f h =
          { death_rate := drop_days_by_indicator f.death_rate h
            case_rate := drop_days_by_indicator f.case_rate h
            hosp_rate := drop_days_by_indicator f.hosp_rate h }) := by
  refine ⟨by simp [drop_days_by_indicator], drop_days_length data h,
    nonMissingIdx_length data, blankedIdx_length data h, drop_days_getD data h,
    ?_, blankedIdx_most_recent data h, fun _ => rfl⟩
  intro i hi
  exact (mem_nonMissingIdx.mp (blankedIdx_subset data h i hi)).2

/-- Witness for C3 on the channel `[some 1, none, some 2, some 3]` with
holdout depth 2: the blanked indices are `[2, 3]`. -/
theorem C3_tail_blanking_witness :
    drop_days_by_indicator [some (1:ℚ), none, some 2, some 3] 0
        = [some (1:ℚ), none, some 2, some 3]
    ∧ (drop_days_by_indicator [some (1:ℚ), none, some 2, some 3] 2).getD 2 none
        = (if 2 ∈ blankedIdx [some (1:ℚ), none, some 2, some 3] 2 then none
           else ([some (1:ℚ), none, some 2, some 3]).getD 2 none)
    ∧ (blankedIdx [some (1:ℚ), none, some 2, some 3] 2).length
        = min 2 (nonMissingIdx [some (1:ℚ), none, some 2, some 3]).length := by
  obtain ⟨h1, _, _, h4, h5, _, _, _⟩ :=
    C3_tail_blanking [some (1:ℚ), none, some 2, some 3] 2
  exact ⟨h1, h5 2 (by simp), h4⟩

/-! ## `model_iteration` copy semantics (models.py lines 30–38, 106)

`model_iteration` begins with `model_data = model_data.copy()` (line 34);
the subsequent in-place blanking (`data[drop_idx] = np.nan` inside
`drop_days_by_indicator`) therefore mutates the copy, never the caller's
frame.  We make the caller's frame explicit state: the pair returned is
(the iteration's blanked working frame, the caller's frame as it stands
after the call). -/

def model_iteration_stateful (frame : IndicatorFrame) (doy_holdout : Nat) :
    IndicatorFrame × IndicatorFrame :=
  let working := frame
  (model_iteration_blank working doy_holdout, frame)

/-- The iteration loop of `run_models` (line 106): the per-location frame
is threaded through the `H+1` calls in depth order, each call receiving
the frame state left by the previous one. -/
def run_models_iterations :
    IndicatorFrame → List Nat → List IndicatorFrame × IndicatorFrame
  | frame, [] => ([], frame)
  | frame, h :: hs =>
    let step := model_iteration_stateful frame h
    let rest := run_models_iterations step.2 hs
    (step.1 :: rest.1, rest.2)

/-- Claim C9: `model_iteration` never modifies the frame passed to it, so
across the whole iteration loop the caller's frame is returned unchanged
and every depth-`h` iteration blanks the original full series — never a
previous iteration's already-blanked output. -/
theorem C9_no_frame_mutation (frame : IndicatorFrame) (depths : List Nat) :
    (run_models_iterations frame depths).2 = frame
    ∧ (run_models_iterations frame depths).1
        = depths.map (fun h => model_iteration_blank frame h) := by
  induction depths with
  | nil => exact ⟨rfl, rfl⟩
  | cons h hs ih =>
    obtain ⟨ih1, ih2⟩ := ih
    constructor
    · show (run_models_iterations frame hs).2 = frame
      exact ih1
    · show model_iteration_blank frame h :: (run_models_iterations frame hs).1
          = model_iteration_blank frame h :: hs.map (fun d => model_iteration_blank frame d)
      rw [ih2]

/-! ## Rescaling rates to counts (models.py, `run_models` lines 129–135)

```python
noisy_draws[draw_cols] = noisy_draws[draw_cols] * noisy_draws[['population']].values
smooth_draws[draw_cols] = smooth_draws[draw_cols] * smooth_draws[['population']].values
del noisy_draws['population']
del smooth_draws['population']
```
Each row's draw columns are multiplied by that row's `population`, then
the `population` column is removed.  `CountRow` has no population field,
embedding the column drop. -/

structure DrawRow where
  draws : List ℚ
  population : ℚ
  deriving DecidableEq

structure CountRow where
  draws : List ℚ
  deriving DecidableEq

def rescale_row (r : DrawRow) : CountRow :=
  { draws := r.draws.map (fun d => d * r.population) }

/-- The rescaling applied by `run_models` to both draw tables. -/
def run_models_rescale (noisy_draws smooth_draws : List DrawRow) :
    List CountRow × List CountRow :=
  (noisy_draws.map rescale_row, smooth_draws.map rescale_row)

/-- Claim C7: after assembly every draw column of both tables equals the rate
draw times the row's population (the population column being dropped:
`CountRow` carries none), and dividing a rescaled draw by the same nonzero
population recovers the rate draw. -/
theorem C7_rescaling (noisy_draws smooth_draws : List DrawRow) (r : DrawRow)
    (i : Nat) (hi : i < r.draws.length) (hpop : r.population ≠ 0) :
    run_models_rescale noisy_draws smooth_draws
        = (noisy_draws.map rescale_row, smooth_draws.map rescale_row)
    ∧ (rescale_row r).draws.length = r.draws.length
    ∧ (rescale_row r).draws.getD i 0 = r.draws.getD i 0 * r.population
    ∧ (rescale_row r).draws.getD i 0 / r.population = r.draws.getD i 0 := by
  have hlen : (rescale_row r).draws.length = r.draws.length := by
    simp [rescale_row]
  have hval : (rescale_row r).draws.getD i 0 = r.draws.getD i 0 * r.population := by
    unfold rescale_row
    rw [List.getD_eq_getElem?_getD, List.getD_eq_getElem?_getD, List.getElem?_map]
    rw [List.getElem?_eq_getElem hi]
    simp
  refine ⟨rfl, hlen, hval, ?_⟩
  rw [hval, mul_div_assoc, div_self hpop, mul_one]

/-- Witness for C7 on a row with draws `[1/2, 3]` and population `4`. -/
theorem C7_rescaling_witness :
    (rescale_row ⟨[(1:ℚ)/2, 3], 4⟩).draws.getD 0 0
        = ([(1:ℚ)/2, 3]).getD 0 0 * 4
    ∧ (rescale_row ⟨[(1:ℚ)/2, 3], 4⟩).draws.getD 0 0 / 4 = ([(1:ℚ)/2, 3]).getD 0 0 := by
  obtain ⟨_, _, h3, h4⟩ :=
    C7_rescaling [] [] ⟨[(1:ℚ)/2, 3], 4⟩ 0 (by simp) (by norm_num)
  exact ⟨h3, h4⟩

/-! ## Infection derivation (runner.py, `make_deaths` lines 227–236)

```python
infections['date'] = infections['date'] - pd.Timedelta(days=DURATION + 11)
...
smooth_draws = (smooth_draws.sort_index().reset_index().groupby('location_id')
    .apply(lambda x: pd.DataFrame(np.diff(x[draw_cols], axis=0, prepend=0),
                                  index=x['date'], columns=draw_cols)))
```
`np.diff(v, prepend=0)` along the date axis of one cumulative draw series
`v` gives `v[0] - 0, v[1] - v[0], …`; the dates of the differenced rows
are kept.  The reporting-lag shift is `DURATION + 11 = 23` days backward. -/

def DURATION : Nat := 12

structure DatedValue where
  date : Int
  value : ℚ
  deriving DecidableEq

/-- `np.diff(xs, prepend=0)`: pairwise difference with an implicit zero
predecessor for the first entry. -/
def np_diff_prepend_zero (xs : List ℚ) : List ℚ :=
  List.zipWith (fun a b => a - b) xs (0 :: xs)

/-- One location's cumulative draw series (date-ordered rows) turned into
daily increments; the date of each row is kept (`index=x['date']`). -/
def cumulative_to_daily (rows : List DatedValue) : List DatedValue :=
  List.zipWith (fun r v => { date := r.date, value := v }) rows
    (np_diff_prepend_zero (rows.map (fun r => r.value)))

/-- The date shift applied to the infection table (runner.py line 227):
`date - pd.Timedelta(days=DURATION + 11)`. -/
def shift_infection_date (d : Int) : Int := d - (DURATION + 11)

lemma np_diff_length (xs : List ℚ) :
    (np_diff_prepend_zero xs).length = xs.length := by
  simp [np_diff_prepend_zero]

lemma np_diff_getD (xs : List ℚ) (i : Nat) (hi : i < xs.length) :
    (np_diff_prepend_zero xs).getD i 0 = xs.getD i 0 - (0 :: xs).getD i 0 := by
  have hi2 : i < (0 :: xs).length := by simp; omega
  unfold np_diff_prepend_zero
  rw [List.getD_eq_getElem?_getD, List.getElem?_zipWith,
    List.getElem?_eq_getElem hi, List.getElem?_eq_getElem hi2]
  rw [List.getD_eq_getElem?_getD, List.getElem?_eq_getElem hi]
  rw [List.getD_eq_getElem?_getD, List.getElem?_eq_getElem hi2]
  simp

lemma cumulative_to_daily_length (rows : List DatedValue) :
    (cumulative_to_daily rows).length = rows.length := by
  simp [cumulative_to_daily, np_diff_length]

lemma cumulative_to_daily_getD (rows : List DatedValue) (i : Nat)
    (hi : i < rows.length) :
    (cumulative_to_daily rows).getD i ⟨0, 0⟩
      = { date := (rows.getD i ⟨0, 0⟩).date
          value := (np_diff_prepend_zero (rows.map (fun r => r.value))).getD i 0 } := by
  have hd : i < (np_diff_prepend_zero (rows.map (fun r => r.value))).length := by
    rw [np_diff_length, List.length_map]; exact hi
  unfold cumulative_to_daily
  rw [List.getD_eq_getElem?_getD, List.getElem?_zipWith,
    List.getElem?_eq_getElem hi, List.getElem?_eq_getElem hd]
  rw [List.getD_eq_getElem?_getD, List.getElem?_eq_getElem hi]
  rw [List.getD_eq_getElem?_getD, List.getElem?_eq_getElem hd]
  simp

lemma map_value_getD (rows : List DatedValue) (i : Nat) (hi : i < rows.length) :
    (rows.map (fun r => r.value)).getD i 0 = (rows.getD i ⟨0, 0⟩).value := by
  rw [List.getD_eq_getElem?_getD, List.getElem?_map, List.getElem?_eq_getElem hi]
  rw [List.getD_eq_getElem?_getD, List.getElem?_eq_getElem hi]
  simp

/-- Claim C6: infection derivation first-differences each cumulative draw
series in date order with an implicit zero predecessor (the first row's
daily value equals its cumulative value), keeps row dates, and the
infection output dates are shifted backward by the fixed reporting lag
`DURATION + 11 = 23` days; cumulative `[5, 12, 20]` on consecutive dates
yields daily `[5, 7, 8]`. -/
theorem C6_infection_derivation (rows : List DatedValue) :
    (cumulative_to_daily rows).length = rows.length
    ∧ (∀ i, i < rows.length →
        ((cumulative_to_daily rows).getD i ⟨0, 0⟩).date = (rows.getD i ⟨0, 0⟩).date)
    ∧ (rows ≠ [] →
        ((cumulative_to_daily rows).getD 0 ⟨0, 0⟩).value = (rows.getD 0 ⟨0, 0⟩).value)
    ∧ (∀ i, i + 1 < rows.length →
        ((cumulative_to_daily rows).getD (i + 1) ⟨0, 0⟩).value
          = (rows.getD (i + 1) ⟨0, 0⟩).value - (rows.getD i ⟨0, 0⟩).value)
    ∧ (∀ d : Int, shift_infection_date d = d - 23)
    ∧ (cumulative_to_daily [⟨0, 5⟩, ⟨1, 12⟩, ⟨2, 20⟩]
        = [⟨0, 5⟩, ⟨1, 7⟩, ⟨2, 8⟩]) := by
  refine ⟨cumulative_to_daily_length rows, ?_, ?_, ?_, ?_, ?_⟩
  · intro i hi
    rw [cumulative_to_daily_getD rows i hi]
  · intro hne
    have h0 : 0 < rows.length := List.length_pos.mpr hne
    rw [cumulative_to_daily_getD rows 0 h0]
    show (np_diff_prepend_zero (rows.map (fun r => r.value))).getD 0 0 = _
    rw [np_diff_getD _ 0 (by simpa using h0)]
    rw [map_value_getD rows 0 h0]
    simp
  · intro i hi
    have hij : i < rows.length := by omega
    rw [cumulative_to_daily_getD rows (i + 1) hi]
    show (np_diff_prepend_zero (rows.map (fun r => r.value))).getD (i + 1) 0 = _
    rw [np_diff_getD _ (i + 1) (by simpa using hi)]
    rw [List.getD_cons_succ, map_value_getD rows (i + 1) hi, map_value_getD rows i hij]
  · intro d
    simp [shift_infection_date, DURATION]
  · simp [cumulative_to_daily, np_diff_prepend_zero]
    norm_num

/-- Witness for C6 on the scenario series `[5, 12, 20]`. -/
theorem C6_infection_derivation_witness :
    ((cumulative_to_daily [⟨0, 5⟩, ⟨1, 12⟩, ⟨2, 20⟩]).getD 0 ⟨0, 0⟩).value
        = (([⟨0, 5⟩, ⟨1, 12⟩, ⟨2, 20⟩] : List DatedValue).getD 0 ⟨0, 0⟩).value
    ∧ ((cumulative_to_daily [⟨0, 5⟩, ⟨1, 12⟩, ⟨2, 20⟩]).getD 1 ⟨0, 0⟩).value
        = (([⟨0, 5⟩, ⟨1, 12⟩, ⟨2, 20⟩] : List DatedValue).getD 1 ⟨0, 0⟩).value
          - (([⟨0, 5⟩, ⟨1, 12⟩, ⟨2, 20⟩] : List DatedValue).getD 0 ⟨0, 0⟩).value
    ∧ shift_infection_date 30 = 30 - 23 := by
  obtain ⟨_, _, h3, h4, h5, _⟩ := C6_infection_derivation [⟨0, 5⟩, ⟨1, 12⟩, ⟨2, 20⟩]
  exact ⟨h3 (by simp), h4 0 (by simp), h5 30⟩

/-! ## Post-model aggregate publishing (runner.py, `make_deaths` lines 192–198)

```python
agg_model_data['location_id'] = -agg_model_data['location_id']
agg_model_data['location_name'] = agg_model_data['location_name'] + ' (model aggregate)'
...
agg_draw_df['location_id'] = -agg_draw_df['location_id']
```
-/

/-- A declared aggregate location, e.g. `aggregate.Location(1, 'Global')`. -/
structure AggLocation where
  id : Int
  name : String
  deriving DecidableEq

structure AggDataRow where
  location_id : Int
  location_name : String
  deriving DecidableEq

/-- Modelled from the spec: `aggregate.compute_location_aggregates_data`
(module `aggregate`, not under src/) emits rows keyed by each declared
aggregate location's declared id and name ("for a declared list of
aggregate locations … produce an aggregate rate row … summing the
constituent locations' absolute counts"); the summed values themselves
are outside this claim. -/
def compute_location_aggregates_data (aggs : List AggLocation) : List AggDataRow :=
  aggs.map (fun a => { location_id := a.id, location_name := a.name })

/-- The publishing step of `make_deaths`: negate ids, append the fixed
name suffix. -/
def publish_aggregates (aggs : List AggLocation) : List AggDataRow :=
  (compute_location_aggregates_data aggs).map
    (fun r => { location_id := -r.location_id
                location_name := r.location_name ++ " (model aggregate)" })

/-- The id negation applied to the aggregate draw table. -/
def publish_agg_draw_ids (ids : List Int) : List Int := ids.map (fun i => -i)

/-- Claim C8: every aggregate location's published id is the negation of its
declared source id and its published name is the source name with the
fixed " (model aggregate)" suffix; the draw table gets the same id
negation. -/
theorem C8_aggregate_publishing (aggs : List AggLocation) (ids : List Int) :
    publish_aggregates aggs
      = aggs.map (fun a => { location_id := -a.id
                             location_name := a.name ++ " (model aggregate)" })
    ∧ (∀ a ∈ aggs,
        ({ location_id := -a.id
           location_name := a.name ++ " (model aggregate)" } : AggDataRow)
          ∈ publish_aggregates aggs)
    ∧ publish_agg_draw_ids ids = ids.map (fun i => -i) := by
  refine ⟨?_, ?_, rfl⟩
  · unfold publish_aggregates compute_location_aggregates_data
    rw [List.map_map]
    rfl
  · intro a ha
    unfold publish_aggregates compute_location_aggregates_data
    rw [List.map_map]
    exact List.mem_map.mpr ⟨a, ha, rfl⟩

/-- Witness for C8 on the declared aggregate `Location(1, 'Global')` and a
draw-table id `5`. -/
theorem C8_aggregate_publishing_witness :
    ({ location_id := -(1 : Int)
       location_name := "Global" ++ " (model aggregate)" } : AggDataRow)
      ∈ publish_aggregates [⟨1, "Global"⟩]
    ∧ publish_agg_draw_ids [5] = ([5] : List Int).map (fun i => -i) := by
  obtain ⟨_, h2, h3⟩ := C8_aggregate_publishing [⟨1, "Global"⟩] [5]
  exact ⟨h2 ⟨1, "Global"⟩ (by simp), h3⟩

/-! ## Continuity guard (runner.py, `make_deaths` lines 159–178)

```python
nan_rows = smooth_draws.isnull().any(axis=1)
smooth_draws_nans = smooth_draws.loc[nan_rows].reset_index()
if smooth_draws_nans.empty:
    app_metadata.update({'nan_locations': []})
else:
    smooth_draws = smooth_draws.loc[~nan_rows].reset_index()
    nan_min = smooth_draws_nans.groupby('location_id')['date'].min()
    val_max = smooth_draws.groupby('location_id')['date'].max()
    date_diffs = (nan_min - val_max).apply(lambda x: x.days)
    date_diffs = date_diffs.loc[date_diffs.notnull()]
    app_metadata.update({'nan_locations': date_diffs.index.to_list()})
    if (date_diffs < 0).any():
        date_diffs.to_csv(output_root / 'problem_location_report.csv', index=False)
        raise ValueError('Dropping NaNs in middle of time series ...')
```
A row is NaN if any draw column is missing.  `nan_min - val_max` aligns
the two per-location series on location id; a location present in only
one of them yields NaT, which `.notnull()` drops, so `date_diffs` (and
hence `nan_locations` and the written report) covers exactly the
locations having both a NaN row and a non-NaN row. -/

/-- Minimum of a list of dates (`groupby(...)['date'].min()` on one
location's group): `none` when the group is empty. -/
def listMin : List Int → Option Int
  | [] => none
  | x :: xs =>
    match listMin xs with
    | none => some x
    | some m => some (min x m)

def listMax : List Int → Option Int
  | [] => none
  | x :: xs =>
    match listMax xs with
    | none => some x
    | some m => some (max x m)

lemma listMin_eq_none_iff (l : List Int) : listMin l = none ↔ l = [] := by
  cases l with
  | nil => simp [listMin]
  | cons x xs =>
    simp only [listMin]
    cases listMin xs <;> simp

lemma listMin_isSome_of_mem {l : List Int} {x : Int} (hx : x ∈ l) :
    ∃ a, listMin l = some a := by
  cases hl : listMin l with
  | none => exact absurd ((listMin_eq_none_iff l).mp hl ▸ hx) (List.not_mem_nil x)
  | some a => exact ⟨a, rfl⟩

lemma listMin_le {l : List Int} {a : Int} (ha : listMin l = some a) :
    ∀ x ∈ l, a ≤ x := by
  induction l generalizing a with
  | nil => simp [listMin] at ha
  | cons y ys ih =>
    intro x hx
    simp only [listMin] at ha
    cases hys : listMin ys with
    | none =>
      rw [hys] at ha
      have hnil := (listMin_eq_none_iff ys).mp hys
      subst hnil
      simp at hx
      simp at ha
      omega
    | some m =>
      rw [hys] at ha
      simp at ha
      rcases List.mem_cons.mp hx with h | h
      · subst h; omega
      · have := ih hys x h
        omega

lemma listMax_eq_none_iff (l : List Int) : listMax l = none ↔ l = [] := by
  cases l with
  | nil => simp [listMax]
  | cons x xs =>
    simp only [listMax]
    cases listMax xs <;> simp

lemma listMax_isSome_of_mem {l : List Int} {x : Int} (hx : x ∈ l) :
    ∃ a, listMax l = some a := by
  cases hl : listMax l with
  | none => exact absurd ((listMax_eq_none_iff l).mp hl ▸ hx) (List.not_mem_nil x)
  | some a => exact ⟨a, rfl⟩

lemma listMax_ge {l : List Int} {a : Int} (ha : listMax l = some a) :
    ∀ x ∈ l, x ≤ a := by
  induction l generalizing a with
  | nil => simp [listMax] at ha
  | cons y ys ih =>
    intro x hx
    simp only [listMax] at ha
    cases hys : listMax ys with
    | none =>
      rw [hys] at ha
      have hnil := (listMax_eq_none_iff ys).mp hys
      subst hnil
      simp at hx
      simp at ha
      omega
    | some m =>
      rw [hys] at ha
      simp at ha
      rcases List.mem_cons.mp hx with h | h
      · subst h; omega
      · have := ih hys x h
        omega

lemma listMin_mem {l : List Int} {a : Int} (ha : listMin l = some a) : a ∈ l := by
  induction l generalizing a with
  | nil => simp [listMin] at ha
  | cons y ys ih =>
    simp only [listMin] at ha
    cases hys : listMin ys with
    | none => rw [hys] at ha; simp at ha; simp [ha]
    | some m =>
      rw [hys] at ha
      simp at ha
      rcases min_choice y m with h | h <;> rw [h] at ha
      · simp [ha]
      · exact List.mem_cons_of_mem y (ha ▸ ih hys)

lemma listMax_mem {l : List Int} {a : Int} (ha : listMax l = some a) : a ∈ l := by
  induction l generalizing a with
  | nil => simp [listMax] at ha
  | cons y ys ih =>
    simp only [listMax] at ha
    cases hys : listMax ys with
    | none => rw [hys] at ha; simp at ha; simp [ha]
    | some m =>
      rw [hys] at ha
      simp at ha
      rcases max_choice y m with h | h <;> rw [h] at ha
      · simp [ha]
      · exact List.mem_cons_of_mem y (ha ▸ ih hys)

structure SDRow where
  location_id : Int
  date : Int
  draws : List (Option ℚ)
  deriving DecidableEq

def rowIsNaN (r : SDRow) : Bool := r.draws.any (fun d => d.isNone)

def nan_rows_of (t : List SDRow) : List SDRow := t.filter (fun r => rowIsNaN r)

def kept_rows_of (t : List SDRow) : List SDRow := t.filter (fun r => !rowIsNaN r)

def loc_dates (rows : List SDRow) (loc : Int) : List Int :=
  (rows.filter (fun r => r.location_id == loc)).map (fun r => r.date)

def nan_min (t : List SDRow) (loc : Int) : Option Int :=
  listMin (loc_dates (nan_rows_of t) loc)

def val_max (t : List SDRow) (loc : Int) : Option Int :=
  listMax (loc_dates (kept_rows_of t) loc)

def date_diff (t : List SDRow) (loc : Int) : Option Int :=
  match nan_min t loc, val_max t loc with
  | some a, some b => some (a - b)
  | _, _ => none

def nan_location_ids (t : List SDRow) : List Int :=
  (((nan_rows_of t).map (fun r => r.location_id)).dedup).filter
    (fun loc => (date_diff t loc).isSome)

/-- The in-memory `date_diffs` series: per surviving location its gap,
indexed by `location_id`.  This is what the fatal `(date_diffs < 0)`
check reads; it is not what reaches the written csv (see
`written_problem_report`). -/
def guard_report (t : List SDRow) : List (Int × Int) :=
  (nan_location_ids t).filterMap (fun loc => (date_diff t loc).map (fun d => (loc, d)))

/-- The rows actually written to `problem_location_report.csv`
(runner.py line 177): `date_diffs.to_csv(..., index=False)` drops the
series index — which is the `location_id` — so only the bare gap values
are written. -/
def written_problem_report (t : List SDRow) : List Int :=
  (guard_report t).map (fun p => p.2)

inductive GuardOutcome where
  | ok (kept : List SDRow) (nan_locations : List Int)
  | fatal (report : List (Int × Int))
  deriving DecidableEq

def continuity_guard (t : List SDRow) : GuardOutcome :=
  if (nan_rows_of t).isEmpty then GuardOutcome.ok t []
  else if (guard_report t).any (fun p => decide (p.2 < 0)) then
    GuardOutcome.fatal (guard_report t)
  else GuardOutcome.ok (kept_rows_of t) (nan_location_ids t)

lemma mem_loc_dates {rows : List SDRow} {loc d : Int} :
    d ∈ loc_dates rows loc ↔ ∃ r ∈ rows, r.location_id = loc ∧ r.date = d := by
  simp only [loc_dates, List.mem_map, List.mem_filter, beq_iff_eq]
  constructor
  · rintro ⟨r, ⟨hr, hloc⟩, hd⟩
    exact ⟨r, hr, hloc, hd⟩
  · rintro ⟨r, hr, hloc, hd⟩
    exact ⟨r, ⟨hr, hloc⟩, hd⟩

lemma mem_nan_rows {t : List SDRow} {r : SDRow} :
    r ∈ nan_rows_of t ↔ r ∈ t ∧ rowIsNaN r = true := by
  simp [nan_rows_of]

lemma mem_kept_rows {t : List SDRow} {r : SDRow} :
    r ∈ kept_rows_of t ↔ r ∈ t ∧ rowIsNaN r = false := by
  simp [kept_rows_of]

lemma nan_min_le {t : List SDRow} {rN : SDRow} (h : rN ∈ nan_rows_of t) :
    ∃ a, nan_min t rN.location_id = some a ∧ a ≤ rN.date := by
  have hmem : rN.date ∈ loc_dates (nan_rows_of t) rN.location_id :=
    mem_loc_dates.mpr ⟨rN, h, rfl, rfl⟩
  obtain ⟨a, ha⟩ := listMin_isSome_of_mem hmem
  exact ⟨a, ha, listMin_le ha rN.date hmem⟩

lemma val_max_ge {t : List SDRow} {rV : SDRow} (h : rV ∈ kept_rows_of t) :
    ∃ b, val_max t rV.location_id = some b ∧ rV.date ≤ b := by
  have hmem : rV.date ∈ loc_dates (kept_rows_of t) rV.location_id :=
    mem_loc_dates.mpr ⟨rV, h, rfl, rfl⟩
  obtain ⟨b, hb⟩ := listMax_isSome_of_mem hmem
  exact ⟨b, hb, listMax_ge hb rV.date hmem⟩

lemma nan_min_attained {t : List SDRow} {loc a : Int} (h : nan_min t loc = some a) :
    ∃ rN ∈ nan_rows_of t, rN.location_id = loc ∧ rN.date = a :=
  mem_loc_dates.mp (listMin_mem h)

lemma val_max_attained {t : List SDRow} {loc b : Int} (h : val_max t loc = some b) :
    ∃ rV ∈ kept_rows_of t, rV.location_id = loc ∧ rV.date = b :=
  mem_loc_dates.mp (listMax_mem h)

lemma date_diff_eq (t : List SDRow) (loc a b : Int) (ha : nan_min t loc = some a)
    (hb : val_max t loc = some b) : date_diff t loc = some (a - b) := by
  unfold date_diff
  rw [ha, hb]

lemma mem_nan_location_ids {t : List SDRow} {loc : Int} :
    loc ∈ nan_location_ids t ↔
      (∃ r ∈ nan_rows_of t, r.location_id = loc) ∧ (date_diff t loc).isSome := by
  unfold nan_location_ids
  rw [List.mem_filter, List.mem_dedup, List.mem_map]

lemma mem_guard_report {t : List SDRow} {p : Int × Int} :
    p ∈ guard_report t ↔ p.1 ∈ nan_location_ids t ∧ date_diff t p.1 = some p.2 := by
  unfold guard_report
  rw [List.mem_filterMap]
  constructor
  · rintro ⟨loc, hloc, hmap⟩
    obtain ⟨d, hd, hpd⟩ := Option.map_eq_some'.mp hmap
    rw [← hpd]
    exact ⟨hloc, hd⟩
  · rintro ⟨h1, h2⟩
    refine ⟨p.1, h1, ?_⟩
    rw [h2]
    rfl

lemma no_nan_branch {t : List SDRow} (h : nan_rows_of t = []) :
    kept_rows_of t = t ∧ nan_location_ids t = [] := by
  constructor
  · unfold kept_rows_of
    rw [List.filter_eq_self]
    intro r hr
    by_contra hc
    have hnan : rowIsNaN r = true := by
      cases hb : rowIsNaN r
      · rw [hb] at hc; simp at hc
      · rfl
    have : r ∈ nan_rows_of t := mem_nan_rows.mpr ⟨hr, hnan⟩
    rw [h] at this
    exact List.not_mem_nil r this
  · unfold nan_location_ids
    rw [h]
    rfl

lemma date_diff_none_left (t : List SDRow) (loc : Int)
    (h : nan_min t loc = none) : date_diff t loc = none := by
  unfold date_diff
  rw [h]

lemma date_diff_none_right (t : List SDRow) (loc : Int)
    (h : val_max t loc = none) : date_diff t loc = none := by
  unfold date_diff
  rw [h]
  cases nan_min t loc <;> rfl

lemma pass_gap_pos (t : List SDRow) (loc : Int)
    (hloc : ∀ rN ∈ nan_rows_of t, rN.location_id = loc →
      ∀ rV ∈ kept_rows_of t, rV.location_id = loc → rV.date < rN.date) :
    ∀ d, date_diff t loc = some d → 0 < d := by
  intro d hd
  cases ha : nan_min t loc with
  | none =>
    rw [date_diff_none_left t loc ha] at hd
    exact absurd hd (by simp)
  | some a =>
    cases hb : val_max t loc with
    | none =>
      rw [date_diff_none_right t loc hb] at hd
      exact absurd hd (by simp)
    | some b =>
      rw [date_diff_eq t loc a b ha hb] at hd
      injection hd with hdb
      obtain ⟨rN, hrN, hrNloc, hrNd⟩ := nan_min_attained ha
      obtain ⟨rV, hrV, hrVloc, hrVd⟩ := val_max_attained hb
      have hlt := hloc rN hrN hrNloc rV hrV hrVloc
      omega

lemma guard_ok_of_pass (t : List SDRow)
    (hp : ∀ rN ∈ nan_rows_of t, ∀ rV ∈ kept_rows_of t,
        rN.location_id = rV.location_id → rV.date < rN.date) :
    continuity_guard t = GuardOutcome.ok (kept_rows_of t) (nan_location_ids t) := by
  unfold continuity_guard
  by_cases hemp : (nan_rows_of t).isEmpty = true
  · rw [if_pos hemp]
    obtain ⟨hk, hl⟩ := no_nan_branch (List.isEmpty_iff.mp hemp)
    rw [hk, hl]
  · rw [if_neg hemp]
    have hany : (guard_report t).any (fun p => decide (p.2 < 0)) = false := by
      rw [List.any_eq_false]
      rintro ⟨loc, d⟩ hmem
      obtain ⟨hlocs, hd⟩ := mem_guard_report.mp hmem
      have hpass : ∀ rN ∈ nan_rows_of t, rN.location_id = loc →
          ∀ rV ∈ kept_rows_of t, rV.location_id = loc → rV.date < rN.date := by
        intro rN hrN hrNloc rV hrV hrVloc
        exact hp rN hrN rV hrV (by rw [hrNloc, hrVloc])
      have hpos : 0 < d := pass_gap_pos t loc hpass d hd
      simp only [decide_eq_true_eq]
      omega
    rw [hany]
    simp

lemma guard_fatal_of_interior (t : List SDRow) (loc : Int) (rN rV : SDRow)
    (hrN : rN ∈ nan_rows_of t) (hrNloc : rN.location_id = loc)
    (hrV : rV ∈ kept_rows_of t) (hrVloc : rV.location_id = loc)
    (hdate : rN.date < rV.date) :
    continuity_guard t = GuardOutcome.fatal (guard_report t) := by
  obtain ⟨a, ha, haN⟩ := nan_min_le hrN
  obtain ⟨b, hb, hbV⟩ := val_max_ge hrV
  rw [hrNloc] at ha
  rw [hrVloc] at hb
  have hd : date_diff t loc = some (a - b) := date_diff_eq t loc a b ha hb
  have hneg : a - b < 0 := by omega
  have hlocmem : loc ∈ nan_location_ids t :=
    mem_nan_location_ids.mpr ⟨⟨rN, hrN, hrNloc⟩, by rw [hd]; rfl⟩
  have hrep : ((loc, a - b) : Int × Int) ∈ guard_report t :=
    mem_guard_report.mpr ⟨hlocmem, hd⟩
  have hany : (guard_report t).any (fun p => decide (p.2 < 0)) = true := by
    rw [List.any_eq_true]
    exact ⟨(loc, a - b), hrep, by simpa using hneg⟩
  have hnemp : ¬ (nan_rows_of t).isEmpty = true := by
    intro hemp
    rw [List.isEmpty_iff] at hemp
    rw [hemp] at hrN
    exact List.not_mem_nil rN hrN
  unfold continuity_guard
  rw [if_neg hnemp, if_pos hany]

/-- Claim C4: calling a row NaN when any draw column is missing, a table
whose every location's NaN rows are dated strictly after that location's
non-NaN rows passes the continuity check with only the (trailing) NaN
rows dropped; per location, such trailing missingness gives a positive
gap; and any location with even one NaN row dated before one of its
non-NaN rows (hence before its latest non-NaN date, `gap < 0`) makes the
whole run fail fatally. -/
theorem C4_continuity_check (t : List SDRow) :
    ((∀ rN ∈ nan_rows_of t, ∀ rV ∈ kept_rows_of t,
        rN.location_id = rV.location_id → rV.date < rN.date) →
      continuity_guard t = GuardOutcome.ok (kept_rows_of t) (nan_location_ids t))
    ∧ (∀ loc, (∀ rN ∈ nan_rows_of t, rN.location_id = loc →
          ∀ rV ∈ kept_rows_of t, rV.location_id = loc → rV.date < rN.date) →
        ∀ d, date_diff t loc = some d → 0 < d)
    ∧ (∀ r ∈ t, r ∉ kept_rows_of t → rowIsNaN r = true)
    ∧ (∀ loc rN rV, rN ∈ nan_rows_of t → rN.location_id = loc →
        rV ∈ kept_rows_of t → rV.location_id = loc → rN.date < rV.date →
        continuity_guard t = GuardOutcome.fatal (guard_report t)) := by
  refine ⟨guard_ok_of_pass t, pass_gap_pos t, ?_, ?_⟩
  · intro r hr hnk
    cases hb : rowIsNaN r with
    | false => exact absurd (mem_kept_rows.mpr ⟨hr, hb⟩) hnk
    | true => rfl
  · intro loc rN rV hrN hrNloc hrV hrVloc hdate
    exact guard_fatal_of_interior t loc rN rV hrN hrNloc hrV hrVloc hdate

/-- Witness for C4: a location with a trailing NaN row passes; a location
with an interior NaN row aborts the run. -/
theorem C4_continuity_check_witness :
    continuity_guard [⟨1, 0, [some 1]⟩, ⟨1, 1, [none]⟩]
      = GuardOutcome.ok (kept_rows_of [⟨1, 0, [some 1]⟩, ⟨1, 1, [none]⟩])
          (nan_location_ids [⟨1, 0, [some 1]⟩, ⟨1, 1, [none]⟩])
    ∧ continuity_guard [⟨1, 5, [none]⟩, ⟨1, 6, []⟩]
      = GuardOutcome.fatal (guard_report [⟨1, 5, [none]⟩, ⟨1, 6, []⟩]) := by
  constructor
  · exact (C4_continuity_check [⟨1, 0, [some 1]⟩, ⟨1, 1, [none]⟩]).1 (by decide)
  · exact (C4_continuity_check [⟨1, 5, [none]⟩, ⟨1, 6, []⟩]).2.2.2 1
      ⟨1, 5, [none]⟩ ⟨1, 6, []⟩ (by decide) (by decide) (by decide) (by decide) (by decide)

/-- Claim C5 (code bug, evaluated at a failing input): on a table whose
single location 1 has an interior gap of `-1`, the run does fail fatally
and the in-memory `date_diffs` does pair the offending location with its
gap, but the artifact written for operator inspection at runner.py line
177 — `date_diffs.to_csv(..., index=False)` — drops the `location_id`
index, so the written diagnostic holds only the bare gap values and no
offending location appears in it as a `(location_id, gap)` pair. -/
theorem C5_report_bug :
    continuity_guard [⟨1, 5, [none]⟩, ⟨1, 6, []⟩]
      = GuardOutcome.fatal (guard_report [⟨1, 5, [none]⟩, ⟨1, 6, []⟩])
    ∧ guard_report [⟨1, 5, [none]⟩, ⟨1, 6, []⟩] = [(1, -1)]
    ∧ written_problem_report [⟨1, 5, [none]⟩, ⟨1, 6, []⟩] = [-1] := by
  decide

/-- Claim C10: a location all of whose rows have a missing draw value has
no defined gap, so the continuity check never raises a fatal error for
it (it never appears in the report), all of its rows are silently dropped
from the downstream working set, and its id is omitted from the recorded
`nan_locations` metadata. -/
theorem C10_fully_nan_location (t : List SDRow) (loc : Int)
    (hall : ∀ r ∈ t, r.location_id = loc → rowIsNaN r = true)
    (hex : ∃ r ∈ t, r.location_id = loc) :
    date_diff t loc = none
    ∧ loc ∉ nan_location_ids t
    ∧ (∀ r ∈ kept_rows_of t, r.location_id ≠ loc)
    ∧ (∀ g : Int, (loc, g) ∉ guard_report t)
    ∧ (∀ kept nl, continuity_guard t = GuardOutcome.ok kept nl →
        (∀ r ∈ kept, r.location_id ≠ loc) ∧ loc ∉ nl) := by
  have hkept : ∀ r ∈ kept_rows_of t, r.location_id ≠ loc := by
    intro r hr hrl
    obtain ⟨hrt, hno⟩ := mem_kept_rows.mp hr
    rw [hall r hrt hrl] at hno
    exact Bool.noConfusion hno
  have hvm : val_max t loc = none := by
    unfold val_max
    rw [listMax_eq_none_iff, List.eq_nil_iff_forall_not_mem]
    intro d hd
    obtain ⟨r, hr, hrl, _⟩ := mem_loc_dates.mp hd
    exact hkept r hr hrl
  have hdd : date_diff t loc = none := date_diff_none_right t loc hvm
  have hnl : loc ∉ nan_location_ids t := by
    intro hmem
    have hs := (mem_nan_location_ids.mp hmem).2
    rw [hdd] at hs
    exact Bool.noConfusion hs
  have hrep : ∀ g : Int, (loc, g) ∉ guard_report t := by
    intro g hmem
    exact hnl (mem_guard_report.mp hmem).1
  refine ⟨hdd, hnl, hkept, hrep, ?_⟩
  intro kept nl heq
  obtain ⟨r0, hr0, hr0loc⟩ := hex
  have hr0nan : r0 ∈ nan_rows_of t := mem_nan_rows.mpr ⟨hr0, hall r0 hr0 hr0loc⟩
  have hnemp : ¬ (nan_rows_of t).isEmpty = true := by
    intro hemp
    rw [List.isEmpty_iff] at hemp
    rw [hemp] at hr0nan
    exact List.not_mem_nil r0 hr0nan
  unfold continuity_guard at heq
  rw [if_neg hnemp] at heq
  by_cases hany : (guard_report t).any (fun p => decide (p.2 < 0)) = true
  · rw [if_pos hany] at heq
    exact GuardOutcome.noConfusion heq
  · rw [if_neg hany] at heq
    injection heq with hk hn
    rw [← hk, ← hn]
    exact ⟨hkept, hnl⟩

/-- Witness for C10 on a location whose two rows are both NaN. -/
theorem C10_fully_nan_location_witness :
    date_diff [⟨1, 0, [none]⟩, ⟨1, 1, [none]⟩] 1 = none
    ∧ (1 : Int) ∉ nan_location_ids [⟨1, 0, [none]⟩, ⟨1, 1, [none]⟩]
    ∧ (∀ g : Int, ((1 : Int), g) ∉ guard_report [⟨1, 0, [none]⟩, ⟨1, 1, [none]⟩]) := by
  obtain ⟨h1, h2, _, h4, _⟩ := C10_fully_nan_location
    [⟨1, 0, [none]⟩, ⟨1, 1, [none]⟩] 1 (by decide) (by decide)
  exact ⟨h1, h2, h4⟩

end CovidSpline
